import Mathlib

/-!
# Verification of the pdcurses screen-dump module (`pdc_scrdump.c`)

Shallow embedding of `putwin`, `getwin`, `scr_dump`, `scr_init`,
`scr_restore` and `scr_set` from
`src/graphics/pdcurs34/pdcurses/pdc_scrdump.c`.

Modelling choices:

* A stream is a list of byte values (`List Nat`); `fread`/`fwrite` with
  member count 1 either transfer the full item or fail (short read /
  short write).  Per the C standard both return 0 when the size is 0.
* Write failures and allocation failures are driven by explicit oracles
  (`List Bool`, consumed front to back; an exhausted oracle means
  success), so that "any allocation step may fail" is expressible.
* `chtype` is a 32-bit cell value (`cellSize = 4` bytes); machine
  arithmetic `ncols * sizeof(chtype)` is carried out as C does it:
  the `int` is converted to `size_t` and multiplied modulo `2^64`.
* The raw `WINDOW` struct image written to disk is modelled as the
  `_maxy` and `_maxx` fields (4 bytes each, little endian, two's
  complement) followed by an opaque fixed-size block standing for all
  remaining struct bytes (cursor position, flags, and the pointer-sized
  fields whose on-disk values are stale addresses).  The dirty-range
  *arrays* (`_firstch`/`_lastch`) are heap blocks reached through
  pointers, so their contents are not part of the struct image — only
  stale pointer bytes are, which `getwin` overwrites with fresh
  allocations.  The exact sizes are build specific; the model fixes a
  representative opaque size.
* Collaborators that live elsewhere in the repository
  (`PDC_makelines`, `touchwin`, `overwrite`, `delwin`) are modelled
  from the spec's interface descriptions (`allocate_lines`,
  `mark_all_dirty`, `copy_region`, `release_window`); `delwin` only
  frees memory, which has no observable effect in a value model.
-/

/-- curses success status. -/
def OK : Int := 0

/-- curses failure status. -/
def ERR : Int := -1

/-- The dump format version byte (`#define DUMPVER 1`). -/
def DUMPVER : Nat := 1

/-- The 3-byte ASCII marker `"PDC"`. -/
def markerBytes : List Nat := [80, 68, 67]

/-- `sizeof(chtype)`: a cell is a 32-bit styled character. -/
def cellSize : Nat := 4

/-- Size of the struct bytes other than `_maxy`/`_maxx` (opaque fields,
including stale pointer bytes).  Build specific; fixed representative
value. -/
def opaqSize : Nat := 8

/-- `sizeof(WINDOW)`: the fixed-size struct image. -/
def structSize : Nat := 8 + opaqSize

/-- Little-endian base-256 digits: `natToBytes k v` is the `k` low bytes
of `v`. -/
def natToBytes : Nat → Nat → List Nat
  | 0, _ => []
  | k + 1, v => v % 256 :: natToBytes k (v / 256)

/-- Recompose a little-endian byte list into a natural number. -/
def bytesToNat : List Nat → Nat
  | [] => 0
  | b :: bs => b + 256 * bytesToNat bs

/-- The 4 bytes of a C `int` value (two's complement, little endian). -/
def intToBytes4 (i : Int) : List Nat :=
  natToBytes 4 (i % (2 ^ 32)).toNat

/-- Read 4 bytes back as a C `int` (two's complement). -/
def bytesToInt4 (bs : List Nat) : Int :=
  let n := bytesToNat bs
  if n < 2 ^ 31 then (n : Int) else (n : Int) - 2 ^ 32

/-- The bytes of a row buffer of `chtype` cells, as `fwrite` emits them. -/
def cellsToBytes : List Nat → List Nat
  | [] => []
  | c :: cs => natToBytes 4 c ++ cellsToBytes cs

/-- Reinterpret raw bytes as `chtype` cells, as `fread` into a cell
buffer does.  A trailing group shorter than a cell cannot arise from the
reads performed here (sizes are multiples of `cellSize`); the function is
completed totally on such inputs. -/
def bytesToCells : List Nat → List Nat
  | [] => []
  | b0 :: b1 :: b2 :: b3 :: rest => bytesToNat [b0, b1, b2, b3] :: bytesToCells rest
  | [b0] => [bytesToNat [b0]]
  | [b0, b1] => [bytesToNat [b0, b1]]
  | [b0, b1, b2] => [bytesToNat [b0, b1, b2]]

/-- C's `n * sizeof(T)` where `n` is an `int` and the result a `size_t`:
conversion to unsigned and multiplication modulo `2^64`. -/
def cMulSize (n : Int) (s : Nat) : Nat :=
  ((n * (s : Int)) % (2 ^ 64)).toNat

/-- The `WINDOW` structure, restricted to what this module touches.
`y` holds the row buffers (`_y`, an array of possibly-null row
pointers), `firstch`/`lastch` the per-row dirty ranges, and `opaq` the
remaining struct bytes carried verbatim through serialization. -/
structure Window where
  maxy : Int
  maxx : Int
  y : List (Option (List Nat))
  firstch : List Int
  lastch : List Int
  opaq : List Nat
deriving Repr, DecidableEq

/-- The raw struct image `fwrite(win, sizeof(WINDOW), 1, filep)` emits:
`_maxy`, `_maxx`, then the opaque remainder (including stale pointer
bytes). -/
def structBytes (w : Window) : List Nat :=
  intToBytes4 w.maxy ++ intToBytes4 w.maxx ++ w.opaq

/-- `fread(buf, sz, 1, filep)` on a stream with `data` bytes remaining:
returns the bytes read and the rest of the stream, or `none` on a short
read.  When `sz = 0`, C's `fread` returns 0, which the callers here
treat as failure. -/
def freadBytes (sz : Nat) (data : List Nat) : Option (List Nat × List Nat) :=
  if sz = 0 then none
  else if sz ≤ data.length then some (data.take sz, data.drop sz) else none

/-- State of an open output stream: bytes written so far, plus the
oracle of outcomes for the remaining `fwrite` calls (exhausted oracle =
all succeed). -/
structure WState where
  out : List Nat
  oks : List Bool
deriving Repr, DecidableEq

/-- `fwrite(buf, sz, 1, filep)`: writes the buffer's `data` bytes and
returns `true`, or fails (short write, nothing observable written).
When `sz = 0`, C's `fwrite` returns 0, which the caller treats as
failure; no oracle entry is consumed in that case. -/
def fwrite1 (sz : Nat) (data : List Nat) (s : WState) : Bool × WState :=
  if sz = 0 then (false, s)
  else
    match s.oks with
    | [] => (true, ⟨s.out ++ data, []⟩)
    | true :: rest => (true, ⟨s.out ++ data, rest⟩)
    | false :: rest => (false, ⟨s.out, rest⟩)

/-- One `malloc` outcome from the allocation oracle (exhausted oracle =
success). -/
def allocStep : List Bool → Bool × List Bool
  | [] => (true, [])
  | b :: rest => (b, rest)

/-- Modelled from the spec: `allocate_lines` (`PDC_makelines`, which is
not part of the sources under verification) — given `height`/`width`
already populated, allocates and wires up `height` row buffers of
`width` cells each; may fail.  One oracle outcome decides the whole
call; fresh buffers hold unspecified contents, fixed here as zeros. -/
def PDC_makelines (w : Window) (ok : Bool) : Option Window :=
  match ok with
  | true =>
    some { w with y := List.replicate w.maxy.toNat (some (List.replicate w.maxx.toNat 0)) }
  | false => none

/-- Modelled from the spec: `mark_all_dirty` (`touchwin`, not part of
the sources under verification) — resets change tracking to "whole
window changed": every row dirty from column 0 to `maxx - 1`. -/
def touchwin (w : Window) : Window :=
  { w with
    firstch := List.replicate w.maxy.toNat 0
    lastch := List.replicate w.maxy.toNat (w.maxx - 1) }

/-- Overwrite the leading cells of a destination row with a source
row's cells (overlapping region; destination keeps its length). -/
def overwriteCells : List Nat → List Nat → List Nat
  | _, [] => []
  | [], d => d
  | c :: cs, _ :: ds => c :: overwriteCells cs ds

/-- Copy one (possibly missing) row onto another: nothing is copied
unless both buffers exist. -/
def copyRow : Option (List Nat) → Option (List Nat) → Option (List Nat)
  | some s, some d => some (overwriteCells s d)
  | _, d => d

/-- Row-by-row overlap copy of a source grid onto a destination grid. -/
def copyRows : List (Option (List Nat)) → List (Option (List Nat)) → List (Option (List Nat))
  | _, [] => []
  | [], d => d
  | s :: ss, d :: ds => copyRow s d :: copyRows ss ds

/-- Modelled from the spec: `copy_region` (`overwrite`, not part of the
sources under verification) — overwrites the destination's visible
content with the source's over their overlap, preserving the
destination's identity, and reports success. -/
def overwrite (src dst : Window) : Int × Window :=
  (OK, { dst with y := copyRows src.y dst.y })

/-- The row-writing loop of `putwin`:
`for (i = 0; i < win->_maxy && win->_y[i]; i++) fwrite(win->_y[i], win->_maxx * sizeof(chtype), 1, filep)`.
`remy` is `_maxy - i`; the rows list is `_y` from index `i` on.  Running
past the end of the allocated row-pointer array (fewer slots than
`_maxy`) is undefined behaviour in C, modelled as `none`. -/
def putwinLoop (maxx : Int) (remy : Int) (rows : List (Option (List Nat))) (s : WState) :
    Option (Int × WState) :=
  if remy ≤ 0 then some (OK, s)
  else
    match rows with
    | [] => none
    | none :: _ => some (OK, s)
    | some row :: rest =>
      let p := fwrite1 (cMulSize maxx cellSize) (cellsToBytes row) s
      if p.1 then putwinLoop maxx (remy - 1) rest p.2 else some (ERR, p.2)

/-- `putwin(WINDOW *win, FILE *filep)`.  `win = none` / `filep = none`
model null pointers.  The result is `some (status, stream state)`;
`none` models undefined behaviour (the struct `fwrite` dereferencing a
null `win`, or the row loop indexing past the row-pointer array).  Note
the source checks only `filep` for null; `win` is dereferenced
unconditionally by the third `fwrite`. -/
def putwin (win : Option Window) (filep : Option WState) : Option (Int × Option WState) :=
  match filep with
  | none => some (ERR, none)
  | some s =>
    match fwrite1 3 markerBytes s with
    | (false, s1) => some (ERR, some s1)
    | (true, s1) =>
      match fwrite1 1 [DUMPVER] s1 with
      | (false, s2) => some (ERR, some s2)
      | (true, s2) =>
        match win with
        | none => none
        | some w =>
          match fwrite1 structSize (structBytes w) s2 with
          | (false, s3) => some (ERR, some s3)
          | (true, s3) =>
            match putwinLoop w.maxx w.maxy w.y s3 with
            | none => none
            | some (r, s4) => some (r, some s4)

/-- The row-reading loop of `getwin`: `cnt` rows of `sz` bytes each are
read into the freshly allocated buffers (each buffer is fully
overwritten, so the loop is modelled as returning the decoded rows).
Any short read aborts (`delwin` frees the partial window — no
observable effect in a value model). -/
def readRows (sz : Nat) (cnt : Nat) (data : List Nat) :
    Option (List (List Nat) × List Nat) :=
  match cnt with
  | 0 => some ([], data)
  | c + 1 =>
    match freadBytes sz data with
    | none => none
    | some (chunk, d1) =>
      match readRows sz c d1 with
      | none => none
      | some (rows, d2) => some (bytesToCells chunk :: rows, d2)

/-- `getwin(FILE *filep)` with the allocation-outcome oracle `alloc`
(five steps in source order: the `WINDOW` struct `malloc`, the `_y`,
`_firstch` and `_lastch` array `malloc`s, and `PDC_makelines`).  After
the struct image is read, the pointer fields hold raw disk bytes,
invalid until replaced — modelled as empty lists until the allocations
install fresh arrays (uninitialized contents fixed as zeros; `touchwin`
and the row reads overwrite them). -/
def getwin (filep : Option (List Nat)) (alloc : List Bool) : Option Window :=
  match allocStep alloc with
  | (false, _) => none
  | (true, al1) =>
    match filep with
    | none => none
    | some data =>
      match freadBytes 4 data with
      | none => none
      | some (m, d1) =>
        if m.take 3 = markerBytes ∧ m[3]? = some DUMPVER then
          match freadBytes structSize d1 with
          | none => none
          | some (img, d2) =>
            let win0 : Window :=
              { maxy := bytesToInt4 (img.take 4)
                maxx := bytesToInt4 ((img.drop 4).take 4)
                y := [], firstch := [], lastch := [], opaq := img.drop 8 }
            match allocStep al1 with
            | (false, _) => none
            | (true, al2) =>
              match allocStep al2 with
              | (false, _) => none
              | (true, al3) =>
                match allocStep al3 with
                | (false, _) => none
                | (true, al4) =>
                  let win1 : Window :=
                    { win0 with
                      y := List.replicate win0.maxy.toNat none
                      firstch := List.replicate win0.maxy.toNat 0
                      lastch := List.replicate win0.maxy.toNat 0 }
                  match PDC_makelines win1 (allocStep al4).1 with
                  | none => none
                  | some win2 =>
                    match readRows (cMulSize win0.maxx cellSize) win0.maxy.toNat d2 with
                    | none => none
                    | some (rows, _) => some (touchwin { win2 with y := rows.map some })
        else none

/-- `scr_dump(const char *filename)`: opens `filename` for binary write
(`openOk` is the `fopen` outcome), delegates to `putwin` on the current
virtual screen, closes the stream, and propagates the result.  The
second component is the resulting file content (`none` when no file was
opened). -/
def scr_dump (filename : Option String) (openOk : Bool) (oks : List Bool)
    (curscr : Option Window) : Option (Int × Option (List Nat)) :=
  match filename with
  | none => some (ERR, none)
  | some _ =>
    if openOk then
      match putwin curscr (some ⟨[], oks⟩) with
      | none => none
      | some (r, s) =>
        some (r, some (match s with | some st => st.out | none => []))
    else some (ERR, none)

/-- `scr_init(const char *filename)`: does nothing and returns `OK`. -/
def scr_init (_filename : Option String) : Int := OK

/-- `scr_restore(const char *filename)`: opens `filename` for binary
read (`fs` maps a name to its content, `none` when `fopen` fails),
delegates to `getwin`, and on success copies the reconstructed window
onto the current virtual screen and releases it.  Returns the status
and the resulting virtual screen. -/
def scr_restore (filename : Option String) (fs : String → Option (List Nat))
    (alloc : List Bool) (curscr : Window) : Int × Window :=
  match filename with
  | none => (ERR, curscr)
  | some name =>
    match fs name with
    | none => (ERR, curscr)
    | some data =>
      match getwin (some data) alloc with
      | none => (ERR, curscr)
      | some replacement => overwrite replacement curscr

/-- `scr_set(const char *filename)`: calls `scr_restore`. -/
def scr_set (filename : Option String) (fs : String → Option (List Nat))
    (alloc : List Bool) (curscr : Window) : Int × Window :=
  scr_restore filename fs alloc curscr

/-! ## Byte-codec lemmas -/

theorem natToBytes_length (k v : Nat) : (natToBytes k v).length = k := by
  induction k generalizing v with
  | zero => rfl
  | succ k ih => simp [natToBytes, ih]

theorem bytesToNat_natToBytes (k v : Nat) :
    bytesToNat (natToBytes k v) = v % 256 ^ k := by
  induction k generalizing v with
  | zero => simp [natToBytes, bytesToNat, Nat.mod_one]
  | succ k ih =>
    simp only [natToBytes, bytesToNat, ih]
    rw [pow_succ, mul_comm (256 ^ k) 256, Nat.mod_mul]

theorem intToBytes4_length (i : Int) : (intToBytes4 i).length = 4 :=
  natToBytes_length 4 _

theorem bytesToInt4_intToBytes4 (i : Int) (h0 : 0 ≤ i) (h1 : i < 2 ^ 31) :
    bytesToInt4 (intToBytes4 i) = i := by
  unfold bytesToInt4 intToBytes4
  rw [bytesToNat_natToBytes]
  have hmod : i % 2 ^ 32 = i := Int.emod_eq_of_lt h0 (by omega)
  have htn : (i % 2 ^ 32).toNat = i.toNat := by rw [hmod]
  rw [htn]
  have hlt : i.toNat < 2 ^ 31 := by omega
  have hmod2 : i.toNat % 256 ^ 4 = i.toNat := Nat.mod_eq_of_lt (by norm_num; omega)
  rw [hmod2]
  simp only [hlt, if_pos]
  omega

theorem cellsToBytes_length (cells : List Nat) :
    (cellsToBytes cells).length = 4 * cells.length := by
  induction cells with
  | nil => rfl
  | cons c cs ih =>
    simp [cellsToBytes, natToBytes_length, ih]
    omega

theorem bytesToCells_natToBytes4 (v : Nat) (rest : List Nat) :
    bytesToCells (natToBytes 4 v ++ rest) =
      bytesToNat (natToBytes 4 v) :: bytesToCells rest := by
  have h : natToBytes 4 v =
      [v % 256, v / 256 % 256, v / 256 / 256 % 256, v / 256 / 256 / 256 % 256] := rfl
  rw [h]
  rfl

theorem bytesToCells_cellsToBytes (cells : List Nat)
    (h : ∀ c ∈ cells, c < 2 ^ 32) :
    bytesToCells (cellsToBytes cells) = cells := by
  induction cells with
  | nil => rfl
  | cons c cs ih =>
    have hc : c < 2 ^ 32 := h c (List.mem_cons_self c cs)
    simp only [cellsToBytes, bytesToCells_natToBytes4, bytesToNat_natToBytes]
    rw [ih (fun x hx => h x (List.mem_cons_of_mem c hx))]
    congr 1
    have : (256 : Nat) ^ 4 = 2 ^ 32 := by norm_num
    rw [this]
    exact Nat.mod_eq_of_lt hc

theorem cMulSize_of_nonneg (n : Int) (s : Nat) (h0 : 0 ≤ n)
    (h : n * (s : Int) < 2 ^ 64) : cMulSize n s = n.toNat * s := by
  unfold cMulSize
  have hnn : 0 ≤ n * (s : Int) := mul_nonneg h0 (by positivity)
  rw [Int.emod_eq_of_lt hnn h]
  have h2 : ((n.toNat * s : Nat) : Int) = n * (s : Int) := by
    push_cast
    rw [Int.toNat_of_nonneg h0]
  rw [← h2, Int.toNat_natCast]

theorem structBytes_length (w : Window) (h : w.opaq.length = opaqSize) :
    (structBytes w).length = structSize := by
  simp [structBytes, intToBytes4_length, h, structSize]
  omega

/-! ## Stream-primitive lemmas -/

theorem freadBytes_append (sz : Nat) (a b : List Nat) (hsz : sz ≠ 0)
    (hlen : a.length = sz) : freadBytes sz (a ++ b) = some (a, b) := by
  unfold freadBytes
  rw [if_neg hsz, if_pos (by simp [hlen])]
  rw [List.take_left' hlen, List.drop_left' hlen]

theorem freadBytes_some (sz : Nat) (data : List Nat) (x : List Nat × List Nat)
    (h : freadBytes sz data = some x) :
    sz ≠ 0 ∧ sz ≤ data.length ∧ x = (data.take sz, data.drop sz) := by
  unfold freadBytes at h
  by_cases h0 : sz = 0
  · simp [h0] at h
  · rw [if_neg h0] at h
    by_cases h1 : sz ≤ data.length
    · rw [if_pos h1] at h
      exact ⟨h0, h1, (Option.some_injective _ h).symm⟩
    · rw [if_neg h1] at h
      exact absurd h (by simp)

/-! ## Row-read-loop lemmas -/

theorem readRows_some (sz cnt : Nat) (data : List Nat)
    (out : List (List Nat) × List Nat) (h : readRows sz cnt data = some out) :
    cnt * sz ≤ data.length ∧ out.1.length = cnt ∧ (0 < cnt → 0 < sz) := by
  induction cnt generalizing data out with
  | zero =>
    unfold readRows at h
    obtain rfl : (([], data) : List (List Nat) × List Nat) = out := by simpa using h
    simp
  | succ c ih =>
    unfold readRows at h
    cases hr : freadBytes sz data with
    | none => rw [hr] at h; exact absurd h (by simp)
    | some chunkd =>
      obtain ⟨chunk, d1⟩ := chunkd
      rw [hr] at h
      dsimp only at h
      obtain ⟨hsz, hle, hx⟩ := freadBytes_some sz data (chunk, d1) hr
      cases hrec : readRows sz c d1 with
      | none => rw [hrec] at h; exact absurd h (by simp)
      | some rowsd =>
        rw [hrec] at h
        obtain ⟨rows, d2⟩ := rowsd
        dsimp only at h
        obtain ⟨ih1, ih2, _⟩ := ih d1 (rows, d2) hrec
        have hd2 : d1.length = data.length - sz := by
          have := congrArg Prod.snd hx
          simp at this
          rw [this]; simp
        injection h with h1
        subst h1
        refine ⟨?_, ?_, fun _ => Nat.pos_of_ne_zero hsz⟩
        · have hmul : (c + 1) * sz = c * sz + sz := Nat.succ_mul c sz
          rw [hd2] at ih1
          omega
        · simp at ih2 ⊢
          exact ih2

theorem readRows_flatten (nc : Nat) (hnc : 0 < nc) (rows : List (List Nat))
    (h : ∀ r ∈ rows, r.length = nc ∧ ∀ c ∈ r, c < 2 ^ 32) (extra : List Nat) :
    readRows (nc * 4) rows.length ((rows.map cellsToBytes).flatten ++ extra) =
      some (rows, extra) := by
  induction rows with
  | nil => simp [readRows]
  | cons r rs ih =>
    obtain ⟨hrl, hrc⟩ := h r (List.mem_cons_self r rs)
    have hlen : (cellsToBytes r).length = nc * 4 := by
      rw [cellsToBytes_length, hrl]; ring
    have hih := ih (fun x hx => h x (List.mem_cons_of_mem r hx))
    simp only [List.map_cons, List.flatten_cons, List.length_cons, List.append_assoc]
    unfold readRows
    rw [freadBytes_append _ _ _ (by positivity) hlen]
    dsimp only
    rw [hih]
    dsimp only
    rw [bytesToCells_cellsToBytes r hrc]

/-! ## Allocation-oracle lemmas -/

theorem allocSteps5 (l : List Bool)
    (h0 : (allocStep l).1 = true)
    (h1 : (allocStep (allocStep l).2).1 = true)
    (h2 : (allocStep (allocStep (allocStep l).2).2).1 = true)
    (h3 : (allocStep (allocStep (allocStep (allocStep l).2).2).2).1 = true)
    (h4 : (allocStep (allocStep (allocStep (allocStep (allocStep l).2).2).2).2).1 = true) :
    ∀ b ∈ l.take 5, b = true := by
  match l with
  | [] => simp
  | [a] => simp_all [allocStep]
  | [a, b] => simp_all [allocStep]
  | [a, b, c] => simp_all [allocStep]
  | [a, b, c, d] => simp_all [allocStep]
  | a :: b :: c :: d :: e :: rest => simp_all [allocStep]

/-! ## Write-oracle helper lemmas -/

theorem oracle_take_mono {l : List Bool} {m n : Nat} (hmn : m ≤ n)
    (h : ∀ b ∈ l.take n, b = true) : ∀ b ∈ l.take m, b = true := by
  intro b hb
  apply h
  have heq : l.take m = (l.take n).take m := by
    rw [List.take_take, Nat.min_eq_left hmn]
  rw [heq] at hb
  exact List.take_subset _ _ hb

theorem oracle_take_drop {l : List Bool} {t j k : Nat} (hjk : j + k ≤ t)
    (h : ∀ b ∈ l.take t, b = true) : ∀ b ∈ (l.drop j).take k, b = true := by
  intro b hb
  apply h
  have h1 : (l.drop j).take k = (l.take (j + k)).drop j := by
    rw [List.drop_take]
    congr 1
    omega
  have h2 : l.take (j + k) = (l.take t).take (j + k) := by
    rw [List.take_take, Nat.min_eq_left hjk]
  rw [h1, h2] at hb
  exact List.take_subset _ _ (List.drop_subset _ _ hb)

theorem oracle_take_add {l : List Bool} {m k : Nat}
    (h1 : ∀ b ∈ l.take m, b = true) (h2 : ∀ b ∈ (l.drop m).take k, b = true) :
    ∀ b ∈ l.take (m + k), b = true := by
  intro b hb
  rw [List.take_add] at hb
  rcases List.mem_append.1 hb with hb | hb
  exacts [h1 b hb, h2 b hb]

theorem fwrite1_true (sz : Nat) (data : List Nat) (out : List Nat) (oks : List Bool)
    (hsz : sz ≠ 0) (h : ∀ b ∈ oks.take 1, b = true) :
    fwrite1 sz data ⟨out, oks⟩ = (true, ⟨out ++ data, oks.drop 1⟩) := by
  cases oks with
  | nil => simp [fwrite1, hsz]
  | cons b t =>
    have hb : b = true := h b (by simp)
    subst hb
    simp [fwrite1, hsz]

theorem fwrite1_fst_true (sz : Nat) (data : List Nat) (out : List Nat) (oks : List Bool)
    (hsz : sz ≠ 0) (h : (fwrite1 sz data ⟨out, oks⟩).1 = true) :
    (∀ b ∈ oks.take 1, b = true) ∧
      fwrite1 sz data ⟨out, oks⟩ = (true, ⟨out ++ data, oks.drop 1⟩) := by
  cases oks with
  | nil => exact ⟨by simp, by simp [fwrite1, hsz]⟩
  | cons b t =>
    cases b with
    | false => simp [fwrite1, hsz] at h
    | true => exact ⟨by simp, by simp [fwrite1, hsz]⟩

/-! ## `putwin` row-loop characterization -/

theorem putwinLoop_allTrue (maxx : Int) (hsz : cMulSize maxx cellSize ≠ 0)
    (rows : List (Option (List Nat))) :
    ∀ (remy : Int), remy.toNat ≤ rows.length →
    ∀ (out : List Nat) (oks : List Bool),
    (∀ b ∈ oks.take ((rows.take remy.toNat).takeWhile Option.isSome).length, b = true) →
    putwinLoop maxx remy rows ⟨out, oks⟩ =
      some (OK,
        ⟨out ++ (((rows.take remy.toNat).takeWhile Option.isSome).map
            (fun r => cellsToBytes (r.getD []))).flatten,
         oks.drop ((rows.take remy.toNat).takeWhile Option.isSome).length⟩) := by
  induction rows with
  | nil =>
    intro remy hlen out oks _
    have hr : remy ≤ 0 := by simp at hlen; omega
    unfold putwinLoop
    rw [if_pos hr]
    simp
  | cons r rs ih =>
    intro remy hlen out oks hoks
    by_cases hr : remy ≤ 0
    · unfold putwinLoop
      rw [if_pos hr]
      have h0 : remy.toNat = 0 := by omega
      simp [h0]
    · have h0 : remy.toNat = (remy.toNat - 1) + 1 := by omega
      rw [h0, List.take_succ_cons] at hoks ⊢
      cases r with
      | none =>
        unfold putwinLoop
        rw [if_neg hr]
        simp [List.takeWhile_cons_of_neg]
      | some row =>
        rw [List.takeWhile_cons_of_pos (by simp)] at hoks ⊢
        simp only [List.length_cons] at hoks
        unfold putwinLoop
        rw [if_neg hr]
        dsimp only
        rw [fwrite1_true _ _ _ _ hsz (oracle_take_mono (by omega) hoks)]
        dsimp only
        have hlen2 : (remy - 1).toNat ≤ rs.length := by
          simp at hlen
          omega
        have hrem : (remy - 1).toNat = remy.toNat - 1 := by omega
        have hoks2 : ∀ b ∈ (oks.drop 1).take
            ((rs.take ((remy - 1).toNat)).takeWhile Option.isSome).length, b = true := by
          rw [hrem]
          exact oracle_take_drop (by omega) hoks
        have hih := ih (remy - 1) hlen2 (out ++ cellsToBytes row) (oks.drop 1) hoks2
        rw [hih, hrem]
        have hdd : (oks.drop 1).drop
              ((rs.take (remy.toNat - 1)).takeWhile Option.isSome).length
            = oks.drop (((rs.take (remy.toNat - 1)).takeWhile Option.isSome).length + 1) := by
          rw [List.drop_drop, Nat.add_comm]
        rw [hdd]
        simp only [List.map_cons, List.flatten_cons, List.length_cons, List.append_assoc]
        simp

theorem putwinLoop_ok_oracle (maxx : Int) (hsz : cMulSize maxx cellSize ≠ 0)
    (rows : List (Option (List Nat))) :
    ∀ (remy : Int) (out : List Nat) (oks : List Bool) (s' : WState),
    putwinLoop maxx remy rows ⟨out, oks⟩ = some (OK, s') →
    ∀ b ∈ oks.take ((rows.take remy.toNat).takeWhile Option.isSome).length, b = true := by
  induction rows with
  | nil =>
    intro remy out oks s' h
    by_cases hr : remy ≤ 0
    · have h0 : remy.toNat = 0 := by omega
      simp [h0]
    · unfold putwinLoop at h
      rw [if_neg hr] at h
      exact absurd h (by simp)
  | cons r rs ih =>
    intro remy out oks s' h
    by_cases hr : remy ≤ 0
    · have h0 : remy.toNat = 0 := by omega
      simp [h0]
    · have h0 : remy.toNat = (remy.toNat - 1) + 1 := by omega
      rw [h0, List.take_succ_cons]
      cases r with
      | none => simp [List.takeWhile_cons_of_neg]
      | some row =>
        rw [List.takeWhile_cons_of_pos (by simp)]
        simp only [List.length_cons]
        unfold putwinLoop at h
        rw [if_neg hr] at h
        dsimp only at h
        cases hfw : (fwrite1 (cMulSize maxx cellSize) (cellsToBytes row) ⟨out, oks⟩).1 with
        | false =>
          rw [hfw] at h
          rw [if_neg (by simp)] at h
          injection h with h1
          injection h1 with h2
          exact absurd h2.symm (by decide)
        | true =>
          obtain ⟨hhead, heq⟩ := fwrite1_fst_true _ _ _ _ hsz hfw
          rw [heq] at h
          simp only [if_pos rfl] at h
          have hrem : (remy - 1).toNat = remy.toNat - 1 := by omega
          have htail := ih (remy - 1) (out ++ cellsToBytes row) (oks.drop 1) s' h
          rw [hrem] at htail
          have hcomb := oracle_take_add hhead htail
          rw [Nat.add_comm]
          exact hcomb

theorem putwinLoop_status (maxx : Int) (rows : List (Option (List Nat))) :
    ∀ (remy : Int) (s : WState) (r : Int) (s' : WState),
    putwinLoop maxx remy rows s = some (r, s') → r = OK ∨ r = ERR := by
  induction rows with
  | nil =>
    intro remy s r s' h
    unfold putwinLoop at h
    by_cases hr : remy ≤ 0
    · rw [if_pos hr] at h
      injection h with h1
      injection h1 with h2
      exact Or.inl h2.symm
    · rw [if_neg hr] at h
      exact absurd h (by simp)
  | cons rr rs ih =>
    intro remy s r s' h
    unfold putwinLoop at h
    by_cases hr : remy ≤ 0
    · rw [if_pos hr] at h
      injection h with h1
      injection h1 with h2
      exact Or.inl h2.symm
    · rw [if_neg hr] at h
      cases rr with
      | none =>
        dsimp only at h
        injection h with h1
        injection h1 with h2
        exact Or.inl h2.symm
      | some row =>
        dsimp only at h
        cases hfw : (fwrite1 (cMulSize maxx cellSize) (cellsToBytes row) s).1 with
        | false =>
          rw [hfw] at h
          rw [if_neg (by simp)] at h
          injection h with h1
          injection h1 with h2
          exact Or.inr h2.symm
        | true =>
          rw [hfw] at h
          simp only [if_pos rfl] at h
          exact ih (remy - 1) _ r s' h

theorem putwinLoop_isSome (maxx : Int) (rows : List (Option (List Nat))) :
    ∀ (remy : Int), remy.toNat ≤ rows.length → ∀ (s : WState),
    (putwinLoop maxx remy rows s).isSome = true := by
  induction rows with
  | nil =>
    intro remy hlen s
    have hr : remy ≤ 0 := by simp at hlen; omega
    unfold putwinLoop
    rw [if_pos hr]
    rfl
  | cons rr rs ih =>
    intro remy hlen s
    by_cases hr : remy ≤ 0
    · unfold putwinLoop
      rw [if_pos hr]
      rfl
    · unfold putwinLoop
      rw [if_neg hr]
      cases rr with
      | none => rfl
      | some row =>
        dsimp only
        cases hfw : (fwrite1 (cMulSize maxx cellSize) (cellsToBytes row) s).1 with
        | false => simp
        | true =>
          simp only [if_pos rfl]
          apply ih
          simp at hlen
          omega

/-! ## `putwin` characterization -/

/-- The row buffers `putwin` writes: `_y` capped at `_maxy`, stopping at
the first null row pointer. -/
def writtenRows (w : Window) : List (Option (List Nat)) :=
  (w.y.take w.maxy.toNat).takeWhile Option.isSome

/-- How many rows `putwin` writes. -/
def nWritten (w : Window) : Nat := (writtenRows w).length

/-- The byte image of the rows `putwin` writes. -/
def writtenRowBytes (w : Window) : List Nat :=
  ((writtenRows w).map (fun r => cellsToBytes (r.getD []))).flatten

/-- The full byte stream of a successful `putwin`: marker, version,
struct image, then the written rows. -/
def putwinBytes (w : Window) : List Nat :=
  markerBytes ++ [DUMPVER] ++ structBytes w ++ writtenRowBytes w

theorem putwin_allTrue (w : Window) (hb : w.maxy.toNat ≤ w.y.length)
    (hsz : cMulSize w.maxx cellSize ≠ 0) (out : List Nat) (oks : List Bool)
    (h : ∀ b ∈ oks.take (3 + nWritten w), b = true) :
    putwin (some w) (some ⟨out, oks⟩) =
      some (OK, some ⟨out ++ putwinBytes w, oks.drop (3 + nWritten w)⟩) := by
  have h1 : ∀ b ∈ (oks.drop 1).take (2 + nWritten w), b = true :=
    oracle_take_drop (by omega) h
  have h2 : ∀ b ∈ ((oks.drop 1).drop 1).take (1 + nWritten w), b = true :=
    oracle_take_drop (by omega) h1
  have h3 : ∀ b ∈ (((oks.drop 1).drop 1).drop 1).take (nWritten w), b = true :=
    oracle_take_drop (by omega) h2
  unfold putwin
  dsimp only
  rw [fwrite1_true 3 markerBytes out oks (by norm_num) (oracle_take_mono (by omega) h)]
  dsimp only
  rw [fwrite1_true 1 [DUMPVER] (out ++ markerBytes) (oks.drop 1) (by norm_num)
    (oracle_take_mono (by omega) h1)]
  dsimp only
  rw [fwrite1_true structSize (structBytes w) (out ++ markerBytes ++ [DUMPVER])
    ((oks.drop 1).drop 1) (by decide) (oracle_take_mono (by omega) h2)]
  dsimp only
  rw [putwinLoop_allTrue w.maxx hsz w.y w.maxy hb
    (out ++ markerBytes ++ [DUMPVER] ++ structBytes w) (((oks.drop 1).drop 1).drop 1) h3]
  dsimp only
  simp only [putwinBytes, writtenRowBytes, writtenRows, nWritten, List.append_assoc,
    List.drop_drop]

theorem putwin_ok_oracle (w : Window) (hsz : cMulSize w.maxx cellSize ≠ 0)
    (out : List Nat) (oks : List Bool) (s' : WState)
    (h : putwin (some w) (some ⟨out, oks⟩) = some (OK, some s')) :
    ∀ b ∈ oks.take (3 + nWritten w), b = true := by
  unfold putwin at h
  dsimp only at h
  cases hf1 : fwrite1 3 markerBytes ⟨out, oks⟩ with
  | mk b1 s1 =>
  rw [hf1] at h
  cases b1 with
  | false =>
    dsimp only at h
    injection h with hp
    injection hp with hp1 hp2
    exact absurd hp1 (by decide)
  | true =>
  obtain ⟨hh1, he1⟩ := fwrite1_fst_true 3 markerBytes out oks (by norm_num)
    (by rw [hf1])
  rw [hf1] at he1
  injection he1 with he1a he1b
  subst he1b
  dsimp only at h
  cases hf2 : fwrite1 1 [DUMPVER] ⟨out ++ markerBytes, oks.drop 1⟩ with
  | mk b2 s2 =>
  rw [hf2] at h
  cases b2 with
  | false =>
    dsimp only at h
    injection h with hp
    injection hp with hp1 hp2
    exact absurd hp1 (by decide)
  | true =>
  obtain ⟨hh2, he2⟩ := fwrite1_fst_true 1 [DUMPVER] (out ++ markerBytes) (oks.drop 1)
    (by norm_num) (by rw [hf2])
  rw [hf2] at he2
  injection he2 with he2a he2b
  subst he2b
  dsimp only at h
  cases hf3 : fwrite1 structSize (structBytes w)
      ⟨out ++ markerBytes ++ [DUMPVER], (oks.drop 1).drop 1⟩ with
  | mk b3 s3 =>
  rw [hf3] at h
  cases b3 with
  | false =>
    dsimp only at h
    injection h with hp
    injection hp with hp1 hp2
    exact absurd hp1 (by decide)
  | true =>
  obtain ⟨hh3, he3⟩ := fwrite1_fst_true structSize (structBytes w)
    (out ++ markerBytes ++ [DUMPVER]) ((oks.drop 1).drop 1) (by decide) (by rw [hf3])
  rw [hf3] at he3
  injection he3 with he3a he3b
  subst he3b
  dsimp only at h
  cases hl : putwinLoop w.maxx w.maxy w.y
      ⟨out ++ markerBytes ++ [DUMPVER] ++ structBytes w,
       ((oks.drop 1).drop 1).drop 1⟩ with
  | none => rw [hl] at h; exact absurd h (by simp)
  | some rs4 =>
    obtain ⟨r4, s4⟩ := rs4
    rw [hl] at h
    dsimp only at h
    injection h with hp
    injection hp with hp1 hp2
    rw [hp1] at hl
    have htail := putwinLoop_ok_oracle w.maxx hsz w.y w.maxy _ _ s4 hl
    have hc3 := oracle_take_add hh3 htail
    have hc2 := oracle_take_add hh2 hc3
    have hc1 := oracle_take_add hh1 hc2
    rw [show 3 + nWritten w = 1 + (1 + (1 + nWritten w)) by omega]
    exact fun b hb2 => hc1 b hb2

theorem putwin_status (w : Window) (out : List Nat) (oks : List Bool)
    (r : Int) (s : Option WState)
    (h : putwin (some w) (some ⟨out, oks⟩) = some (r, s)) : r = OK ∨ r = ERR := by
  unfold putwin at h
  dsimp only at h
  cases hf1 : fwrite1 3 markerBytes ⟨out, oks⟩ with
  | mk b1 s1 =>
  rw [hf1] at h
  cases b1 with
  | false =>
    dsimp only at h
    injection h with hp
    injection hp with hp1 hp2
    exact Or.inr hp1.symm
  | true =>
  dsimp only at h
  cases hf2 : fwrite1 1 [DUMPVER] s1 with
  | mk b2 s2 =>
  rw [hf2] at h
  cases b2 with
  | false =>
    dsimp only at h
    injection h with hp
    injection hp with hp1 hp2
    exact Or.inr hp1.symm
  | true =>
  dsimp only at h
  cases hf3 : fwrite1 structSize (structBytes w) s2 with
  | mk b3 s3 =>
  rw [hf3] at h
  cases b3 with
  | false =>
    dsimp only at h
    injection h with hp
    injection hp with hp1 hp2
    exact Or.inr hp1.symm
  | true =>
  dsimp only at h
  cases hl : putwinLoop w.maxx w.maxy w.y s3 with
  | none => rw [hl] at h; exact absurd h (by simp)
  | some rs4 =>
    obtain ⟨r4, s4⟩ := rs4
    rw [hl] at h
    dsimp only at h
    injection h with hp
    injection hp with hp1 hp2
    rw [← hp1]
    exact putwinLoop_status w.maxx w.y w.maxy s3 r4 s4 hl

theorem putwin_isSome (w : Window) (hb : w.maxy.toNat ≤ w.y.length) (s : WState) :
    (putwin (some w) (some s)).isSome = true := by
  unfold putwin
  dsimp only
  cases hf1 : fwrite1 3 markerBytes s with
  | mk b1 s1 =>
  cases b1 with
  | false => rfl
  | true =>
  dsimp only
  cases hf2 : fwrite1 1 [DUMPVER] s1 with
  | mk b2 s2 =>
  cases b2 with
  | false => rfl
  | true =>
  dsimp only
  cases hf3 : fwrite1 structSize (structBytes w) s2 with
  | mk b3 s3 =>
  cases b3 with
  | false => rfl
  | true =>
  dsimp only
  have hls := putwinLoop_isSome w.maxx w.y w.maxy hb s3
  obtain ⟨⟨r4, s4⟩, hx⟩ := Option.isSome_iff_exists.1 hls
  rw [hx]
  rfl

/-! ## Well-formed windows and the `getwin` success computation -/

/-- A valid, allocated row buffer: non-null, `maxx` cells, each a
representable `chtype` value. -/
def rowOk (maxx : Int) (r : Option (List Nat)) : Bool :=
  match r with
  | none => false
  | some cells => cells.length = maxx.toNat && cells.all (fun c => c < 2 ^ 32)

/-- A fully allocated, consistent window as produced by the windowing
engine: positive `int` dimensions, one non-null `maxx`-cell row buffer
per line, and a struct-sized opaque block. -/
def WellFormed (w : Window) : Prop :=
  1 ≤ w.maxy ∧ w.maxy < 2 ^ 31 ∧ 1 ≤ w.maxx ∧ w.maxx < 2 ^ 31 ∧
  w.y.length = w.maxy.toNat ∧ (∀ r ∈ w.y, rowOk w.maxx r = true) ∧
  w.opaq.length = opaqSize

instance (w : Window) : Decidable (WellFormed w) := by
  unfold WellFormed
  infer_instance

theorem rowOk_isSome (maxx : Int) (r : Option (List Nat)) (h : rowOk maxx r = true) :
    r.isSome = true := by
  cases r with
  | none => exact absurd h (by simp [rowOk])
  | some cells => rfl

theorem writtenRows_of_wellformed (w : Window) (hwf : WellFormed w) :
    writtenRows w = w.y := by
  obtain ⟨_, _, _, _, hlen, hrows, _⟩ := hwf
  unfold writtenRows
  rw [← hlen, List.take_length]
  exact List.takeWhile_eq_self_iff.2 (fun r hr => rowOk_isSome w.maxx r (hrows r hr))

theorem map_some_getD (l : List (Option (List Nat)))
    (h : ∀ r ∈ l, r.isSome = true) :
    l.map (fun r => some (r.getD [])) = l := by
  induction l with
  | nil => rfl
  | cons r rs ih =>
    cases r with
    | none => exact absurd (h none (by simp)) (by simp)
    | some cells =>
      simp only [List.map_cons, Option.getD_some]
      rw [ih (fun x hx => h x (List.mem_cons_of_mem _ hx))]

theorem cMulSize_pos_int (maxx : Int) (h1 : 1 ≤ maxx) (h2 : maxx < 2 ^ 31) :
    cMulSize maxx cellSize = maxx.toNat * 4 := by
  have := cMulSize_of_nonneg maxx cellSize (by omega) (by simp [cellSize]; omega)
  simpa [cellSize] using this

theorem getwin_putwinBytes (w : Window) (hwf : WellFormed w) :
    getwin (some (putwinBytes w)) [] =
      some { w with
              firstch := List.replicate w.maxy.toNat 0
              lastch := List.replicate w.maxy.toNat (w.maxx - 1) } := by
  obtain ⟨hy1, hy2, hx1, hx2, hlen, hrows, hopaq⟩ := hwf
  have hsb : structBytes w = intToBytes4 w.maxy ++ (intToBytes4 w.maxx ++ w.opaq) := by
    simp [structBytes]
  have hsplit : putwinBytes w =
      (markerBytes ++ [DUMPVER]) ++ (structBytes w ++ writtenRowBytes w) := by
    simp [putwinBytes]
  have htake4 : (structBytes w).take 4 = intToBytes4 w.maxy := by
    rw [hsb, List.take_left' (intToBytes4_length _)]
  have hdrop4 : (structBytes w).drop 4 = intToBytes4 w.maxx ++ w.opaq := by
    rw [hsb, List.drop_left' (intToBytes4_length _)]
  have hdt : ((structBytes w).drop 4).take 4 = intToBytes4 w.maxx := by
    rw [hdrop4, List.take_left' (intToBytes4_length _)]
  have hdrop8 : (structBytes w).drop 8 = w.opaq := by
    have h44 : (structBytes w).drop 8 = ((structBytes w).drop 4).drop 4 := by
      rw [List.drop_drop]
    rw [h44, hdrop4, List.drop_left' (intToBytes4_length _)]
  have hmy : bytesToInt4 ((structBytes w).take 4) = w.maxy := by
    rw [htake4]
    exact bytesToInt4_intToBytes4 w.maxy (by omega) hy2
  have hmx : bytesToInt4 (((structBytes w).drop 4).take 4) = w.maxx := by
    rw [hdt]
    exact bytesToInt4_intToBytes4 w.maxx (by omega) hx2
  have hrows2 : writtenRows w = w.y := writtenRows_of_wellformed w
    ⟨hy1, hy2, hx1, hx2, hlen, hrows, hopaq⟩
  -- the decoded row list
  have hread : readRows (cMulSize w.maxx cellSize) w.maxy.toNat (writtenRowBytes w) =
      some (w.y.map (fun r => r.getD []), []) := by
    have hflat : writtenRowBytes w =
        ((w.y.map (fun r => r.getD [])).map cellsToBytes).flatten ++ [] := by
      simp only [writtenRowBytes, hrows2, List.map_map, List.append_nil]
      rfl
    have hcnt : w.maxy.toNat = (w.y.map (fun r => r.getD [])).length := by
      simp [hlen]
    have hcond : ∀ r ∈ w.y.map (fun r => r.getD []),
        r.length = w.maxx.toNat ∧ ∀ c ∈ r, c < 2 ^ 32 := by
      intro r hr
      obtain ⟨r0, hr0, rfl⟩ := List.mem_map.1 hr
      have hok := hrows r0 hr0
      cases r0 with
      | none => exact absurd hok (by simp [rowOk])
      | some cells =>
        simp only [rowOk, Bool.and_eq_true, decide_eq_true_eq, List.all_eq_true] at hok
        refine ⟨by simpa using hok.1, fun c hc => ?_⟩
        have := hok.2 c (by simpa using hc)
        simpa using this
    rw [hflat, hcnt, cMulSize_pos_int w.maxx hx1 hx2]
    exact readRows_flatten w.maxx.toNat (by omega) _ hcond []
  unfold getwin
  dsimp only [allocStep]
  rw [hsplit, freadBytes_append 4 _ _ (by norm_num) (by simp [markerBytes])]
  dsimp only
  rw [if_pos (by decide)]
  rw [freadBytes_append structSize _ _ (by decide) (structBytes_length w hopaq)]
  dsimp only [PDC_makelines]
  rw [hmy, hmx, hread]
  dsimp only [touchwin]
  have hyy : List.map some (List.map (fun r => r.getD []) w.y) = w.y := by
    rw [List.map_map]
    exact map_some_getD w.y (fun r hr => rowOk_isSome w.maxx r (hrows r hr))
  rw [hyy, hdrop8]

/-! ## Idempotence of the region copy -/

theorem overwriteCells_idem (s : List Nat) :
    ∀ d, overwriteCells s (overwriteCells s d) = overwriteCells s d := by
  induction s with
  | nil => intro d; cases d <;> rfl
  | cons c cs ih =>
    intro d
    cases d with
    | nil => rfl
    | cons dd ds => simp only [overwriteCells]; rw [ih ds]

theorem copyRow_idem (s d : Option (List Nat)) :
    copyRow s (copyRow s d) = copyRow s d := by
  cases s with
  | none => rfl
  | some sc =>
    cases d with
    | none => rfl
    | some dc => simp only [copyRow]; rw [overwriteCells_idem]

theorem copyRows_idem (ss : List (Option (List Nat))) :
    ∀ ds, copyRows ss (copyRows ss ds) = copyRows ss ds := by
  induction ss with
  | nil => intro ds; cases ds <;> rfl
  | cons s ss ih =>
    intro ds
    cases ds with
    | nil => rfl
    | cons d ds => simp only [copyRows]; rw [ih ds, copyRow_idem]

/-! ## Concrete sample values used by the witnesses -/

/-- A concrete well-formed 2-by-2 window. -/
def sampleWin : Window :=
  ⟨2, 2, [some [7, 300], some [65, 66]], [1, 1], [0, 0], List.replicate opaqSize 9⟩

/-- Its serialized stream. -/
def sampleStream : List Nat := putwinBytes sampleWin

/-- The window `getwin` reconstructs from `sampleStream`: same content,
dirty ranges reset to fully dirty. -/
def sampleRestored : Window :=
  ⟨2, 2, [some [7, 300], some [65, 66]], [0, 0], [1, 1], List.replicate opaqSize 9⟩

/-- A stream with the right marker but version byte 2, followed by the
bytes of an otherwise perfectly valid dump. -/
def badVersionStream : List Nat :=
  markerBytes ++ [2] ++ structBytes sampleWin ++ writtenRowBytes sampleWin

/-- A header-and-struct-only stream declaring height 0 (and width 5). -/
def zeroHeightStream : List Nat :=
  markerBytes ++ [DUMPVER] ++ intToBytes4 0 ++ intToBytes4 5 ++ List.replicate opaqSize 0

/-! ## Claim theorems -/

/-- C1 (round-trip identity): serializing a well-formed window — height
and width at least 1, every row buffer non-null with `width` cells of
arbitrary content — with `putwin` succeeds and produces `putwinBytes w`,
and deserializing that stream with `getwin` (all allocations
succeeding) returns a non-null window with identical height, width,
row-by-row cell contents and opaque struct bytes, whose per-row dirty
ranges are fully dirty (`firstch = 0`, `lastch = maxx - 1` on every
row) instead of the original dirty-range values. -/
theorem putwin_getwin_roundtrip (w : Window) (hwf : WellFormed w) :
    putwin (some w) (some ⟨[], []⟩) = some (OK, some ⟨putwinBytes w, []⟩) ∧
    getwin (some (putwinBytes w)) [] =
      some { w with
              firstch := List.replicate w.maxy.toNat 0
              lastch := List.replicate w.maxy.toNat (w.maxx - 1) } := by
  obtain ⟨hy1, hy2, hx1, hx2, hlen, hrows, hopaq⟩ := hwf
  have hsz : cMulSize w.maxx cellSize ≠ 0 := by
    rw [cMulSize_pos_int w.maxx hx1 hx2]
    omega
  constructor
  · have := putwin_allTrue w (by omega) hsz [] [] (by simp)
    simpa using this
  · exact getwin_putwinBytes w ⟨hy1, hy2, hx1, hx2, hlen, hrows, hopaq⟩

/-- Witness for C1 at a concrete 2-by-2 window. -/
theorem putwin_getwin_roundtrip_witness :
    WellFormed sampleWin ∧
    (putwin (some sampleWin) (some ⟨[], []⟩) =
        some (OK, some ⟨putwinBytes sampleWin, []⟩) ∧
     getwin (some (putwinBytes sampleWin)) [] =
       some { sampleWin with
               firstch := List.replicate sampleWin.maxy.toNat 0
               lastch := List.replicate sampleWin.maxy.toNat (sampleWin.maxx - 1) }) :=
  ⟨by decide, putwin_getwin_roundtrip sampleWin (by decide)⟩

/-- C2 (all-or-nothing reconstruction): whenever `getwin` returns a
non-null window, all five allocation steps succeeded, the 4-byte header
matched, the full struct image was read, and all `height` row blocks
were fully read (the stream holds `height × rowsize` bytes past the
header and struct, with a positive row size whenever `height` is
positive); contrapositively, an allocation failure at any step or a
short read on the header, struct image, or any row block yields a null
return. -/
theorem getwin_all_or_nothing (data : List Nat) (alloc : List Bool) (w : Window)
    (h : getwin (some data) alloc = some w) :
    (∀ b ∈ alloc.take 5, b = true) ∧
    data.take 3 = markerBytes ∧ data[3]? = some DUMPVER ∧
    4 + structSize ≤ data.length ∧
    (bytesToInt4 ((data.drop 4).take 4)).toNat *
        cMulSize (bytesToInt4 ((data.drop 8).take 4)) cellSize
      ≤ data.length - (4 + structSize) ∧
    (0 < (bytesToInt4 ((data.drop 4).take 4)).toNat →
      0 < cMulSize (bytesToInt4 ((data.drop 8).take 4)) cellSize) := by
  unfold getwin at h
  cases ha0 : allocStep alloc with
  | mk b0 al1 =>
  rw [ha0] at h
  cases b0 with
  | false => exact absurd h (by simp)
  | true =>
  dsimp only at h
  cases hr1 : freadBytes 4 data with
  | none => rw [hr1] at h; exact absurd h (by simp)
  | some md =>
  obtain ⟨m, d1⟩ := md
  rw [hr1] at h
  dsimp only at h
  obtain ⟨hsz4, hle4, hx4⟩ := freadBytes_some 4 data (m, d1) hr1
  injection hx4 with hm hd1
  subst hm
  subst hd1
  by_cases hhdr : (data.take 4).take 3 = markerBytes ∧ (data.take 4)[3]? = some DUMPVER
  case neg => rw [if_neg hhdr] at h; exact absurd h (by simp)
  case pos =>
  rw [if_pos hhdr] at h
  have htk : (data.take 4).take 3 = data.take 3 := by
    rw [List.take_take]
    norm_num
  have hge : (data.take 4)[3]? = data[3]? := by
    rw [List.getElem?_take]
    norm_num
  have hhdr1 : data.take 3 = markerBytes := by rw [← htk]; exact hhdr.1
  have hhdr2 : data[3]? = some DUMPVER := by rw [← hge]; exact hhdr.2
  cases hr2 : freadBytes structSize (data.drop 4) with
  | none => rw [hr2] at h; exact absurd h (by simp)
  | some imgd =>
  obtain ⟨img, d2⟩ := imgd
  rw [hr2] at h
  dsimp only at h
  obtain ⟨hszS, hleS, hxS⟩ := freadBytes_some structSize (data.drop 4) (img, d2) hr2
  injection hxS with himg hd2
  subst himg
  subst hd2
  have hlen2 : 4 + structSize ≤ data.length := by
    simp only [List.length_drop] at hleS
    omega
  have hq1 : ((data.drop 4).take structSize).take 4 = (data.drop 4).take 4 := by
    rw [List.take_take]
    norm_num [structSize, opaqSize]
  have hq2 : (((data.drop 4).take structSize).drop 4).take 4 = (data.drop 8).take 4 := by
    rw [List.drop_take, List.drop_drop, List.take_take]
    norm_num [structSize, opaqSize]
  rw [hq1, hq2] at h
  cases ha1 : allocStep al1 with
  | mk b1 al2 =>
  rw [ha1] at h
  cases b1 with
  | false => exact absurd h (by simp)
  | true =>
  dsimp only at h
  cases ha2 : allocStep al2 with
  | mk b2 al3 =>
  rw [ha2] at h
  cases b2 with
  | false => exact absurd h (by simp)
  | true =>
  dsimp only at h
  cases ha3 : allocStep al3 with
  | mk b3 al4 =>
  rw [ha3] at h
  cases b3 with
  | false => exact absurd h (by simp)
  | true =>
  dsimp only at h
  cases ha4 : allocStep al4 with
  | mk b4 al5 =>
  rw [ha4] at h
  cases b4 with
  | false => dsimp only [PDC_makelines] at h; exact absurd h (by simp)
  | true =>
  dsimp only [PDC_makelines] at h
  cases hrr : readRows (cMulSize (bytesToInt4 ((data.drop 8).take 4)) cellSize)
      (bytesToInt4 ((data.drop 4).take 4)).toNat ((data.drop 4).drop structSize) with
  | none => rw [hrr] at h; exact absurd h (by simp)
  | some rowsd =>
  obtain ⟨rows, dleft⟩ := rowsd
  have hrs := readRows_some _ _ _ _ hrr
  refine ⟨?_, hhdr1, hhdr2, hlen2, ?_, ?_⟩
  · exact allocSteps5 alloc (by simp [ha0]) (by simp [ha0, ha1]) (by simp [ha0, ha1, ha2])
      (by simp [ha0, ha1, ha2, ha3]) (by simp [ha0, ha1, ha2, ha3, ha4])
  · have hdl : ((data.drop 4).drop structSize).length = data.length - (4 + structSize) := by
      simp only [List.length_drop]
      omega
    have := hrs.1
    rw [hdl] at this
    exact this
  · intro hpos
    exact hrs.2.2 hpos

/-- Witness for C2 at a concrete valid stream. -/
theorem getwin_all_or_nothing_witness :
    (∀ b ∈ ([] : List Bool).take 5, b = true) ∧
    sampleStream.take 3 = markerBytes ∧ sampleStream[3]? = some DUMPVER ∧
    4 + structSize ≤ sampleStream.length ∧
    (bytesToInt4 ((sampleStream.drop 4).take 4)).toNat *
        cMulSize (bytesToInt4 ((sampleStream.drop 8).take 4)) cellSize
      ≤ sampleStream.length - (4 + structSize) ∧
    (0 < (bytesToInt4 ((sampleStream.drop 4).take 4)).toNat →
      0 < cMulSize (bytesToInt4 ((sampleStream.drop 8).take 4)) cellSize) :=
  getwin_all_or_nothing sampleStream [] sampleRestored (by decide)

/-- C3 (header hard-reject): whenever the first 3 stream bytes differ
from the ASCII marker "PDC" or the 4th byte differs from the version
constant 1, `getwin` returns null — for every allocation oracle and
regardless of what the remaining bytes contain (so even if they would
parse as a valid struct image). -/
theorem getwin_header_reject (data : List Nat) (alloc : List Bool)
    (h : data.take 3 ≠ markerBytes ∨ data[3]? ≠ some DUMPVER) :
    getwin (some data) alloc = none := by
  unfold getwin
  cases ha0 : allocStep alloc with
  | mk b0 al1 =>
  cases b0 with
  | false => rfl
  | true =>
  dsimp only
  cases hr1 : freadBytes 4 data with
  | none => rfl
  | some md =>
  obtain ⟨m, d1⟩ := md
  obtain ⟨hsz4, hle4, hx4⟩ := freadBytes_some 4 data (m, d1) hr1
  injection hx4 with hm hd1
  subst hm
  subst hd1
  dsimp only
  rw [if_neg ?hcond]
  case hcond =>
    intro hc
    obtain ⟨hc1, hc2⟩ := hc
    have htk : (data.take 4).take 3 = data.take 3 := by
      rw [List.take_take]
      norm_num
    have hge : (data.take 4)[3]? = data[3]? := by
      rw [List.getElem?_take]
      norm_num
    rcases h with h | h
    · exact h (htk ▸ hc1)
    · exact h (hge ▸ hc2)

/-- Witness for C3: a stream with correct marker, version byte 2, and
an otherwise perfectly valid dump body is rejected. -/
theorem getwin_header_reject_witness :
    (badVersionStream.take 3 ≠ markerBytes ∨ badVersionStream[3]? ≠ some DUMPVER) ∧
    getwin (some badVersionStream) [] = none :=
  ⟨by decide, getwin_header_reject badVersionStream [] (by decide)⟩

/-- C9 (no dimension validation): on a stream whose 4-byte header
matches and whose struct image declares a height at most 0, `getwin`
performs zero row-read iterations and — with all allocation calls
succeeding — returns a non-null window (with an empty row list),
rather than rejecting the stream. -/
theorem getwin_no_dim_check (data : List Nat)
    (hhdr : data.take 4 = markerBytes ++ [DUMPVER])
    (hlen : 4 + structSize ≤ data.length)
    (hneg : bytesToInt4 ((data.drop 4).take 4) ≤ 0) :
    getwin (some data) [] =
      some { maxy := bytesToInt4 ((data.drop 4).take 4)
             maxx := bytesToInt4 ((data.drop 8).take 4)
             y := [], firstch := [], lastch := []
             opaq := ((data.drop 4).take structSize).drop 8 } := by
  have h0 : (bytesToInt4 ((data.drop 4).take 4)).toNat = 0 := by omega
  have hq1 : ((data.drop 4).take structSize).take 4 = (data.drop 4).take 4 := by
    rw [List.take_take]
    norm_num [structSize, opaqSize]
  have hq2 : (((data.drop 4).take structSize).drop 4).take 4 = (data.drop 8).take 4 := by
    rw [List.drop_take, List.drop_drop, List.take_take]
    norm_num [structSize, opaqSize]
  have hrd1 : freadBytes 4 data = some (data.take 4, data.drop 4) := by
    unfold freadBytes
    rw [if_neg (by norm_num), if_pos (by omega)]
  have hrd2 : freadBytes structSize (data.drop 4) =
      some ((data.drop 4).take structSize, (data.drop 4).drop structSize) := by
    unfold freadBytes
    rw [if_neg (by decide), if_pos (by simp [List.length_drop]; omega)]
  unfold getwin
  dsimp only [allocStep]
  rw [hrd1]
  dsimp only
  rw [hhdr]
  rw [if_pos (by decide)]
  rw [hrd2]
  dsimp only [PDC_makelines]
  rw [hq1, hq2, h0]
  dsimp only [readRows]
  dsimp only [touchwin]
  simp [h0]

/-- Witness for C9: a header-and-struct-only stream declaring height 0
is accepted and yields a windowless-content window. -/
theorem getwin_no_dim_check_witness :
    zeroHeightStream.take 4 = markerBytes ++ [DUMPVER] ∧
    4 + structSize ≤ zeroHeightStream.length ∧
    bytesToInt4 ((zeroHeightStream.drop 4).take 4) ≤ 0 ∧
    getwin (some zeroHeightStream) [] =
      some { maxy := bytesToInt4 ((zeroHeightStream.drop 4).take 4)
             maxx := bytesToInt4 ((zeroHeightStream.drop 8).take 4)
             y := [], firstch := [], lastch := []
             opaq := ((zeroHeightStream.drop 4).take structSize).drop 8 } :=
  ⟨by decide, by decide, by decide,
   getwin_no_dim_check zeroHeightStream (by decide) (by decide) (by decide)⟩

/-- C4 (putwin write contract): on a window whose row-pointer array
covers `maxy` and whose width is a positive `int`, and an open stream,
`putwin` returns a status that is `OK` or `ERR`; the status is `OK`
exactly when all attempted writes (marker, version, struct image, and
one write per row up to the first null row pointer or `maxy`) succeed,
in which case the stream contains precisely the marker, version byte,
struct image, and each written row's `maxx * sizeof(chtype)` cell bytes
in ascending row order; any short write yields `ERR`. -/
theorem putwin_write_contract (w : Window) (hb : w.maxy.toNat ≤ w.y.length)
    (hx1 : 1 ≤ w.maxx) (hx2 : w.maxx < 2 ^ 31)
    (oks : List Bool) (r : Int) (s' : WState)
    (h : putwin (some w) (some ⟨[], oks⟩) = some (r, some s')) :
    (r = OK ∨ r = ERR) ∧
    (r = OK ↔ ∀ b ∈ oks.take (3 + nWritten w), b = true) ∧
    (r = OK → s'.out = putwinBytes w) := by
  have hsz : cMulSize w.maxx cellSize ≠ 0 := by
    rw [cMulSize_pos_int w.maxx hx1 hx2]
    omega
  refine ⟨putwin_status w [] oks r (some s') h, ⟨?_, ?_⟩, ?_⟩
  · intro hr
    subst hr
    exact putwin_ok_oracle w hsz [] oks s' h
  · intro hall
    have hres := putwin_allTrue w hb hsz [] oks hall
    rw [hres] at h
    injection h with h1
    injection h1 with h2 h3
    exact h2.symm
  · intro hr
    subst hr
    have hall := putwin_ok_oracle w hsz [] oks s' h
    have hres := putwin_allTrue w hb hsz [] oks hall
    rw [hres] at h
    injection h with h1
    injection h1 with h2 h3
    injection h3 with h4
    rw [← h4]
    simp

/-- Witness for C4 at the sample window with an all-success stream. -/
theorem putwin_write_contract_witness :
    sampleWin.maxy.toNat ≤ sampleWin.y.length ∧
    ((OK = OK ∨ OK = ERR) ∧
     (OK = OK ↔ ∀ b ∈ ([] : List Bool).take (3 + nWritten sampleWin), b = true) ∧
     (OK = OK → (⟨putwinBytes sampleWin, []⟩ : WState).out = putwinBytes sampleWin)) :=
  ⟨by decide,
   putwin_write_contract sampleWin (by decide) (by decide) (by decide) []
     OK ⟨putwinBytes sampleWin, []⟩ (by decide)⟩

/-- C6 counterexample: with a null window and a valid (non-null, fully
writable) stream, `putwin` does not return `ERR` — the source never
null-checks `win`, and the third `fwrite` dereferences the null
pointer (undefined behaviour, modelled as the absence of a result). -/
theorem putwin_null_window_cex : putwin none (some ⟨[], []⟩) = none := rfl

/-- C6 as amended: `putwin` returns `ERR` when the stream is null (for
any window argument, without touching it); it performs no null check on
the window itself — with a non-null stream whose first two writes
succeed, a null window is dereferenced (undefined behaviour) — and on a
window whose row-pointer array covers `maxy`, with a valid stream, it
never raises: it always returns a status. -/
theorem putwin_stream_guard :
    (∀ win : Option Window, putwin win none = some (ERR, none)) ∧
    (∀ (w : Window) (s : WState), w.maxy.toNat ≤ w.y.length →
      (putwin (some w) (some s)).isSome = true) :=
  ⟨fun _ => rfl, fun w s hb => putwin_isSome w hb s⟩

/-- Witness for the amended C6. -/
theorem putwin_stream_guard_witness :
    sampleWin.maxy.toNat ≤ sampleWin.y.length ∧
    putwin none none = some (ERR, none) ∧
    (putwin (some sampleWin) (some ⟨[], []⟩)).isSome = true :=
  ⟨by decide, putwin_stream_guard.1 none,
   putwin_stream_guard.2 sampleWin ⟨[], []⟩ (by decide)⟩

/-- C5 (failed-restore atomicity): whenever `scr_restore` reports
failure — null path, unopenable file, or `getwin` returning null for
any format, I/O or allocation reason — the current virtual screen is
returned completely unchanged; the region copy runs only after a fully
successful reconstruction. -/
theorem scr_restore_fail_preserves_screen (filename : Option String)
    (fs : String → Option (List Nat)) (alloc : List Bool) (curscr : Window)
    (h : (scr_restore filename fs alloc curscr).1 = ERR) :
    (scr_restore filename fs alloc curscr).2 = curscr := by
  cases filename with
  | none => rfl
  | some name =>
    cases hfs : fs name with
    | none => simp [scr_restore, hfs]
    | some data =>
      cases hg : getwin (some data) alloc with
      | none => simp [scr_restore, hfs, hg]
      | some repl =>
        exfalso
        rw [scr_restore] at h
        simp only [hfs, hg] at h
        simp [overwrite, OK, ERR] at h

/-- Witness for C5: restoring with a null path fails and leaves the
screen untouched. -/
theorem scr_restore_fail_preserves_screen_witness :
    (scr_restore none (fun _ => none) [] sampleWin).1 = ERR ∧
    (scr_restore none (fun _ => none) [] sampleWin).2 = sampleWin :=
  ⟨rfl, scr_restore_fail_preserves_screen none (fun _ => none) [] sampleWin rfl⟩

/-- C7 (scr_set is a pure alias): for every filename (and filesystem,
allocation oracle and current screen), `scr_set` performs exactly
`scr_restore` and returns the same result. -/
theorem scr_set_alias (filename : Option String) (fs : String → Option (List Nat))
    (alloc : List Bool) (curscr : Window) :
    scr_set filename fs alloc curscr = scr_restore filename fs alloc curscr := rfl

/-- C8 (idempotent restore): restoring the same file twice in
succession leaves the virtual screen in exactly the state a single
restore produces, and reports the same result — for every file content
(well-formed or not) and allocation oracle. -/
theorem scr_restore_idem (filename : Option String)
    (fs : String → Option (List Nat)) (alloc : List Bool) (curscr : Window) :
    scr_restore filename fs alloc ((scr_restore filename fs alloc curscr).2) =
      scr_restore filename fs alloc curscr := by
  cases filename with
  | none => rfl
  | some name =>
    cases hfs : fs name with
    | none => simp [scr_restore, hfs]
    | some data =>
      cases hg : getwin (some data) alloc with
      | none => simp [scr_restore, hfs, hg]
      | some repl =>
        simp only [scr_restore, hfs, hg, overwrite]
        rw [copyRows_idem]

/-- C10 (null filename short-circuit): `scr_dump`, `scr_restore` and
`scr_set` called with a null filename return `ERR` immediately — no
file is opened or written (independently of the `fopen` outcome and
write oracle) and the virtual screen is returned unchanged. -/
theorem null_filename_noop :
    (∀ (openOk : Bool) (oks : List Bool) (curscr : Option Window),
       scr_dump none openOk oks curscr = some (ERR, none)) ∧
    (∀ (fs : String → Option (List Nat)) (alloc : List Bool) (curscr : Window),
       scr_restore none fs alloc curscr = (ERR, curscr)) ∧
    (∀ (fs : String → Option (List Nat)) (alloc : List Bool) (curscr : Window),
       scr_set none fs alloc curscr = (ERR, curscr)) :=
  ⟨fun _ _ _ => rfl, fun _ _ _ => rfl, fun _ _ _ => rfl⟩
